import Mathlib

/-!
Shallow embedding of the trading-calculator math module:
the pure calculation functions of src/lib/math/utils.ts and
src/lib/math/trading.ts, the prop-firm helpers of src/lib/math/prop.ts
(second half of src/app/page.tsx), and the prop-firm page helpers
(breach price, effective remaining drawdown) of the prop-firm page
component.

A JavaScript number is modelled as Option ℚ: `none` stands for a
non-finite value (NaN or Infinity, both rejected by Number.isFinite),
`some q` for a finite value. Functions that validate their inputs with
assertPositive / assertNonNegative (which throw in the source) are
modelled as returning an Option, `none` on throw.
-/

/-- JavaScript number: `none` is non-finite (NaN or Infinity), `some q` finite. -/
abbrev JSNum := Option ℚ

/-- utils.ts isFiniteNumber / Number.isFinite. -/
def isFiniteNumber (n : JSNum) : Bool := n.isSome

/-- JavaScript comparison n > 0: false for a non-finite value. -/
def jsGt0 (n : JSNum) : Bool :=
  match n with
  | some v => decide (0 < v)
  | none => false

/-- utils.ts clamp: Math.min(max, Math.max(min, n)). -/
def clamp (n mn mx : ℚ) : ℚ := min mx (max mn n)

/-- utils.ts assertPositive: throws unless the value is finite and > 0;
modelled as returning the validated value, `none` on throw. -/
def assertPositive (n : JSNum) : Option ℚ :=
  match n with
  | some q => if 0 < q then some q else none
  | none => none

/-- utils.ts assertNonNegative: throws unless the value is finite and ≥ 0. -/
def assertNonNegative (n : JSNum) : Option ℚ :=
  match n with
  | some q => if 0 ≤ q then some q else none
  | none => none

/-- NaN-propagating JavaScript addition. -/
def jadd : JSNum → JSNum → JSNum
  | some a, some b => some (a + b)
  | _, _ => none

/-- NaN-propagating JavaScript subtraction. -/
def jsub : JSNum → JSNum → JSNum
  | some a, some b => some (a - b)
  | _, _ => none

/-- NaN-propagating JavaScript multiplication. -/
def jmul : JSNum → JSNum → JSNum
  | some a, some b => some (a * b)
  | _, _ => none

/-- NaN-propagating JavaScript division; division by zero yields a
non-finite value (Infinity or NaN), hence `none`. -/
def jdiv : JSNum → JSNum → JSNum
  | some a, some b => if b = 0 then none else some (a / b)
  | _, _ => none

/-- types.ts Side. -/
inductive Side where
  | long
  | short
deriving DecidableEq

/-- trading.ts flipSide. -/
def flipSide (side : Side) : Side :=
  if side = Side.long then Side.short else Side.long

/-- types.ts PnlInput; feeRate is optional (undefined modelled as the
outer `none`), and may itself be a non-finite number. -/
structure PnlInput where
  side : Side
  entryPrice : JSNum
  exitPrice : JSNum
  quantity : JSNum
  feeRate : Option JSNum

/-- types.ts PnlResult. -/
structure PnlResult where
  notionalEntry : ℚ
  notionalExit : ℚ
  grossPnl : ℚ
  fees : ℚ
  netPnl : ℚ
  roiOnNotionalEntry : ℚ
deriving DecidableEq

/-- trading.ts calcPnl. -/
def calcPnl (input : PnlInput) : Option PnlResult := do
  let feeRate0 := input.feeRate.getD (some 0)
  let entryPrice ← assertPositive input.entryPrice
  let exitPrice ← assertPositive input.exitPrice
  let quantity ← assertPositive input.quantity
  let feeRate ← assertNonNegative feeRate0
  let notionalEntry := entryPrice * quantity
  let notionalExit := exitPrice * quantity
  let grossPnl :=
    if input.side = Side.long then (exitPrice - entryPrice) * quantity
    else (entryPrice - exitPrice) * quantity
  let fees := feeRate * (notionalEntry + notionalExit)
  let netPnl := grossPnl - fees
  some ⟨notionalEntry, notionalExit, grossPnl, fees, netPnl, netPnl / notionalEntry⟩

/-- types.ts AvgEntryLeg. -/
structure AvgEntryLeg where
  price : JSNum
  quantity : JSNum

/-- types.ts AvgEntryResult. -/
structure AvgEntryResult where
  totalQty : ℚ
  totalCost : ℚ
  avgPrice : ℚ
deriving DecidableEq

/-- Accumulating loop of trading.ts calcAvgEntry: validates each leg and
sums quantity and cost. -/
def avgEntryLoop : List AvgEntryLeg → ℚ → ℚ → Option (ℚ × ℚ)
  | [], totalQty, totalCost => some (totalQty, totalCost)
  | leg :: rest, totalQty, totalCost => do
    let p ← assertPositive leg.price
    let q ← assertPositive leg.quantity
    avgEntryLoop rest (totalQty + q) (totalCost + p * q)

/-- trading.ts calcAvgEntry: throws on an empty list or any invalid leg. -/
def calcAvgEntry (legs : List AvgEntryLeg) : Option AvgEntryResult :=
  if legs.isEmpty then none
  else (avgEntryLoop legs 0 0).map (fun s => ⟨s.1, s.2, s.2 / s.1⟩)

/-- Parameters of trading.ts calcRequiredQtyForTargetAvg. -/
structure RequiredQtyParams where
  currentAvg : JSNum
  currentQty : JSNum
  newPrice : JSNum
  targetAvg : JSNum

/-- trading.ts calcRequiredQtyForTargetAvg (the clamping variant, unused
by the pages; kept for completeness). -/
def calcRequiredQtyForTargetAvg (params : RequiredQtyParams) : Option ℚ := do
  let currentAvg ← assertPositive params.currentAvg
  let currentQty ← assertPositive params.currentQty
  let newPrice ← assertPositive params.newPrice
  let targetAvg ← assertPositive params.targetAvg
  let mn := min currentAvg newPrice
  let mx := max currentAvg newPrice
  if targetAvg < mn ∨ mx < targetAvg then some 0
  else if newPrice - targetAvg = 0 then some 0
  else some (max 0 ((currentQty * (targetAvg - currentAvg)) / (newPrice - targetAvg)))

/-- types.ts LiquidationInput; mmr optional, default 0.005. -/
structure LiquidationInput where
  side : Side
  entryPrice : JSNum
  leverage : JSNum
  mmr : Option JSNum

/-- types.ts LiquidationResult (assumptions flattened into fields). -/
structure LiquidationResult where
  liquidationPrice : ℚ
  mmr : ℚ
  simplified : Bool
deriving DecidableEq

/-- Number.MAX_SAFE_INTEGER. -/
def MAX_SAFE_INTEGER : ℚ := 9007199254740991

/-- trading.ts calcLiquidationPrice. -/
def calcLiquidationPrice (input : LiquidationInput) : Option LiquidationResult := do
  let mmr0 := input.mmr.getD (some (1 / 200))
  let entryPrice ← assertPositive input.entryPrice
  let leverage ← assertPositive input.leverage
  let mmr ← assertNonNegative mmr0
  let invLev := 1 / leverage
  let liq :=
    if input.side = Side.long then min (entryPrice * (1 - invLev + mmr)) entryPrice
    else max (entryPrice * (1 + invLev - mmr)) entryPrice
  some ⟨clamp liq 0 MAX_SAFE_INTEGER, mmr, true⟩

/-- Parameters of trading.ts compareAvgPnl. -/
structure CompareAvgPnlParams where
  side : Side
  initialPrice : JSNum
  initialQty : JSNum
  addedPrice : JSNum
  addedQty : JSNum
  marketPrice : JSNum

/-- Verdict of trading.ts compareAvgPnl. -/
inductive Verdict where
  | better
  | worse
  | same
deriving DecidableEq

/-- Result of trading.ts compareAvgPnl. -/
structure CompareAvgPnlResult where
  avgPrice : ℚ
  totalQty : ℚ
  pnlOld : ℚ
  pnlNew : ℚ
  delta : ℚ
  verdict : Verdict
deriving DecidableEq

/-- trading.ts compareAvgPnl. -/
def compareAvgPnl (params : CompareAvgPnlParams) : Option CompareAvgPnlResult := do
  let initialPrice ← assertPositive params.initialPrice
  let initialQty ← assertPositive params.initialQty
  let addedPrice ← assertPositive params.addedPrice
  let addedQty ← assertPositive params.addedQty
  let marketPrice ← assertPositive params.marketPrice
  let totalQty := initialQty + addedQty
  let avgPrice := (initialPrice * initialQty + addedPrice * addedQty) / totalQty
  let pnlOld :=
    if params.side = Side.long then (marketPrice - initialPrice) * initialQty
    else (initialPrice - marketPrice) * initialQty
  let pnlNew :=
    if params.side = Side.long then (marketPrice - avgPrice) * totalQty
    else (avgPrice - marketPrice) * totalQty
  let delta := pnlNew - pnlOld
  let verdict :=
    if |delta| < 1 / 100000000 then Verdict.same
    else if 0 < delta then Verdict.better
    else Verdict.worse
  some ⟨avgPrice, totalQty, pnlOld, pnlNew, delta, verdict⟩

/-- Parameters of trading.ts qtyForTargetAvg. -/
structure QtyForTargetAvgParams where
  currentPrice : JSNum
  currentQty : JSNum
  targetAvg : JSNum
  newPrice : JSNum

/-- Tagged outcome of trading.ts qtyForTargetAvg. -/
inductive TargetAvgOutcome where
  | invalid
  | reverse (qty : ℚ)
  | ok (qty : ℚ)
deriving DecidableEq

/-- trading.ts qtyForTargetAvg (the tagged solver used by the pages). -/
def qtyForTargetAvg (params : QtyForTargetAvgParams) : Option TargetAvgOutcome := do
  let currentPrice ← assertPositive params.currentPrice
  let currentQty ← assertPositive params.currentQty
  let targetAvg ← assertPositive params.targetAvg
  let newPrice ← assertPositive params.newPrice
  if newPrice = targetAvg then some TargetAvgOutcome.invalid
  else
    let qty := currentQty * (targetAvg - currentPrice) / (newPrice - targetAvg)
    if qty < 0 then some (TargetAvgOutcome.reverse |qty|)
    else some (TargetAvgOutcome.ok qty)

/-- prop.ts clampNonNegative: Number.isFinite(n) ? Math.max(0, n) : 0. -/
def clampNonNegative (n : JSNum) : ℚ :=
  match n with
  | some q => max 0 q
  | none => 0

/-- prop.ts safeDiv: 0 when either operand is non-finite or the divisor
is zero, n / d otherwise. -/
def safeDiv (n d : JSNum) : ℚ :=
  match n, d with
  | some a, some b => if b = 0 then 0 else a / b
  | _, _ => 0

/-- prop.ts TwoLegAverageInput: second-leg fields are optional. -/
structure TwoLegAverageInput where
  entry1Price : JSNum
  entry1Qty : JSNum
  entry2Price : Option JSNum
  entry2Qty : Option JSNum

/-- prop.ts TwoLegAverageResult. -/
structure TwoLegAverageResult where
  totalQty : ℚ
  avgEntry : JSNum
  avgShift : JSNum
  hasSecondLeg : Bool
deriving DecidableEq

/-- Second-leg presence test of prop.ts calcTwoLegAverage:
Number.isFinite(p2) ∧ Number.isFinite(q2) ∧ q2 > 0. -/
def hasSecondLegOf (p2 q2 : JSNum) : Bool :=
  isFiniteNumber p2 && isFiniteNumber q2 && jsGt0 q2

/-- prop.ts calcTwoLegAverage: the optional-second-leg average. -/
def calcTwoLegAverage (input : TwoLegAverageInput) : TwoLegAverageResult :=
  let p1 := input.entry1Price
  let q1 := input.entry1Qty
  let p2 := input.entry2Price.getD (some 0)
  let q2 := input.entry2Qty.getD (some 0)
  let hasSecondLeg := hasSecondLegOf p2 q2
  let totalQty := clampNonNegative q1 + (if hasSecondLeg then clampNonNegative q2 else 0)
  let avgEntry :=
    if 0 < totalQty then
      jdiv (jadd (jmul p1 (some (clampNonNegative q1)))
            (if hasSecondLeg then jmul p2 (some (clampNonNegative q2)) else some 0))
        (some totalQty)
    else some 0
  ⟨totalQty, avgEntry, jsub avgEntry p1, hasSecondLeg⟩

/-- prop.ts FuturesSpec; pointValueUsd is an optional override. -/
structure FuturesSpec where
  tickSize : JSNum
  tickValueUsd : JSNum
  pointValueUsd : Option JSNum

/-- prop.ts derivePointValueUsd: the override wins when finite and
positive, else tickValueUsd / tickSize via safeDiv. -/
def derivePointValueUsd (spec : FuturesSpec) : ℚ :=
  match spec.pointValueUsd with
  | some (some v) => if 0 < v then v else safeDiv spec.tickValueUsd spec.tickSize
  | _ => safeDiv spec.tickValueUsd spec.tickSize

/-- prop.ts pointsToTicks. -/
def pointsToTicks (points : ℚ) (tickSize : JSNum) : ℚ :=
  safeDiv (some |points|) tickSize

/-- Result of prop.ts futuresBreachPrice. -/
structure FuturesBreachResult where
  maxAdversePoints : ℚ
  maxAdverseTicks : ℚ
  breachPrice : JSNum
deriving DecidableEq

/-- prop.ts futuresBreachPrice: total function, clamps rather than
validating. -/
def futuresBreachPrice (side : Side) (avgEntry contracts remainingDrawdownUsd : JSNum)
    (spec : FuturesSpec) : FuturesBreachResult :=
  let pointValue := derivePointValueUsd spec
  let denom := pointValue * clampNonNegative contracts
  let maxAdversePoints :=
    if 0 < denom then clampNonNegative remainingDrawdownUsd / denom else 0
  let maxAdverseTicks := pointsToTicks maxAdversePoints spec.tickSize
  let breach :=
    if side = Side.long then jsub avgEntry (some maxAdversePoints)
    else jadd avgEntry (some maxAdversePoints)
  ⟨maxAdversePoints, maxAdverseTicks, breach⟩

/-- prop.ts ForexSpec. -/
structure ForexSpec where
  pipSize : JSNum
  pipValueUsd : JSNum

/-- Result of prop.ts forexBreachPrice. -/
structure ForexBreachResult where
  maxAdversePips : ℚ
  breachPrice : JSNum
deriving DecidableEq

/-- prop.ts forexBreachPrice: total function, clamps rather than
validating. -/
def forexBreachPrice (side : Side) (avgEntry lots remainingDrawdownUsd : JSNum)
    (spec : ForexSpec) : ForexBreachResult :=
  let denom := jmul spec.pipValueUsd (some (clampNonNegative lots))
  let maxAdversePips :=
    if jsGt0 denom then clampNonNegative remainingDrawdownUsd / denom.getD 0 else 0
  let maxAdversePriceDist := jmul (some maxAdversePips) spec.pipSize
  let breach :=
    if side = Side.long then jsub avgEntry maxAdversePriceDist
    else jadd avgEntry maxAdversePriceDist
  ⟨maxAdversePips, breach⟩

/-- Mode of the prop-firm page. -/
inductive Mode where
  | futures
  | forex
deriving DecidableEq

/-- Arguments of the prop-firm page breachPrice helper; the three value
specs are optional (non-null-asserted in the source). -/
structure BreachArgs where
  mode : Mode
  side : Side
  avgEntry : JSNum
  qty : JSNum
  remainingDrawdownUsd : JSNum
  pointValueUsd : Option JSNum
  pipSize : Option JSNum
  pipValueUsd : Option JSNum

/-- Unit tag of the prop-firm page breach result. -/
inductive BreachUnit where
  | points
  | pips
deriving DecidableEq

/-- Result of the prop-firm page breachPrice helper. -/
structure BreachResult where
  maxAdverse : ℚ
  breach : ℚ
  unit : BreachUnit
deriving DecidableEq

/-- Prop-firm page breachPrice: throws (none) on non-positive or
non-finite avgEntry, qty, remaining drawdown, or value spec. -/
def breachPrice (args : BreachArgs) : Option BreachResult :=
  if jsGt0 args.avgEntry && jsGt0 args.qty && jsGt0 args.remainingDrawdownUsd then
    let avgEntry := args.avgEntry.getD 0
    let qty := args.qty.getD 0
    let rem := args.remainingDrawdownUsd.getD 0
    let dir : ℚ := if args.side = Side.long then -1 else 1
    match args.mode with
    | Mode.futures =>
      let pv := args.pointValueUsd.getD none
      if jsGt0 pv then
        let maxAdversePoints := rem / (pv.getD 0 * qty)
        some ⟨maxAdversePoints, avgEntry + dir * maxAdversePoints, BreachUnit.points⟩
      else none
    | Mode.forex =>
      let pipSize := args.pipSize.getD none
      let pipValue := args.pipValueUsd.getD none
      if jsGt0 pipSize && jsGt0 pipValue then
        let maxAdversePips := rem / (pipValue.getD 0 * qty)
        some ⟨maxAdversePips, avgEntry + dir * (maxAdversePips * pipSize.getD 0), BreachUnit.pips⟩
      else none
  else none

/-- Prop-firm page calcAvg2Leg (strict 2-leg average). -/
def calcAvg2Leg (p1 q1 p2 q2 : JSNum) : Option AvgEntryResult :=
  if jsGt0 p1 && jsGt0 q1 && jsGt0 p2 && jsGt0 q2 then
    let p1 := p1.getD 0
    let q1 := q1.getD 0
    let p2 := p2.getD 0
    let q2 := q2.getD 0
    some ⟨q1 + q2, p1 * q1 + p2 * q2, (p1 * q1 + p2 * q2) / (q1 + q2)⟩
  else none

/-- Prop-firm page effectiveRemaining memo: minimum of the positive
ceilings, a single positive one, or NaN (none) when neither applies. -/
def effectiveRemaining (a b : JSNum) : JSNum :=
  if isFiniteNumber a && jsGt0 a && isFiniteNumber b && jsGt0 b then
    some (min (a.getD 0) (b.getD 0))
  else if isFiniteNumber a && jsGt0 a then a
  else if isFiniteNumber b && jsGt0 b then b
  else none

/-- Prop-firm page breach memo: skips (none) when the 2-leg average is
unavailable or the effective remaining allowance is not positive. -/
def breachMemo (avg : Option AvgEntryResult) (mode : Mode) (side : Side)
    (remainingDrawdownUsd dailyLossRemainingUsd : JSNum)
    (pointValueUsd pipSize pipValueUsd : JSNum) : Option BreachResult :=
  match avg with
  | none => none
  | some a =>
    let eff := effectiveRemaining remainingDrawdownUsd dailyLossRemainingUsd
    if jsGt0 eff then
      breachPrice ⟨mode, side, some a.avgPrice, some a.totalQty, eff,
        some pointValueUsd, some pipSize, some pipValueUsd⟩
    else none

/-- Entries as rational pairs mapped onto calcAvgEntry legs, used to
state list-level properties. -/
def legsOf (entries : List (ℚ × ℚ)) : List AvgEntryLeg :=
  entries.map (fun e => ⟨some e.1, some e.2⟩)

/-- Sum of the leg quantities of a list of entries. -/
def sumQty (entries : List (ℚ × ℚ)) : ℚ :=
  (entries.map (fun e => e.2)).sum

/-- Sum of price times quantity over a list of entries. -/
def sumCost (entries : List (ℚ × ℚ)) : ℚ :=
  (entries.map (fun e => e.1 * e.2)).sum

/-! ### Helper lemmas -/

theorem assertPositive_eq_none_iff (n : JSNum) :
    assertPositive n = none ↔ n = none ∨ ∃ q, n = some q ∧ q ≤ 0 := by
  cases n with
  | none => simp [assertPositive]
  | some q =>
    simp only [assertPositive]
    split_ifs with h
    · simp [h.not_le]
    · simp [not_lt.mp h]

theorem assertNonNegative_eq_none_iff (n : JSNum) :
    assertNonNegative n = none ↔ n = none ∨ ∃ q, n = some q ∧ q < 0 := by
  cases n with
  | none => simp [assertNonNegative]
  | some q =>
    simp only [assertNonNegative]
    split_ifs with h
    · simp [h.not_lt]
    · simp [not_le.mp h]

theorem calcPnl_eq_none_iff (input : PnlInput) :
    calcPnl input = none ↔
      assertPositive input.entryPrice = none ∨ assertPositive input.exitPrice = none ∨
      assertPositive input.quantity = none ∨
      assertNonNegative (input.feeRate.getD (some 0)) = none := by
  obtain ⟨s, ep, xp, qt, fr⟩ := input
  simp only [calcPnl]
  rcases h1 : assertPositive ep with _ | e <;>
  rcases h2 : assertPositive xp with _ | x <;>
  rcases h3 : assertPositive qt with _ | q <;>
  rcases h4 : assertNonNegative (fr.getD (some 0)) with _ | f <;>
  simp [h1, h2, h3, h4]

/-! ### Claim theorems -/

/-- C1: for every PnL input with entryPrice > 0, exitPrice > 0,
quantity > 0 and feeRate ≥ 0, calcPnl returns grossPnl equal to
(exit − entry)·qty for long and (entry − exit)·qty for short, fees equal
to feeRate·(entry·qty + exit·qty), netPnl = grossPnl − fees, and
roiOnNotionalEntry = netPnl / (entry·qty). -/
theorem calcPnl_formula (side : Side) (e x q f : ℚ)
    (he : 0 < e) (hx : 0 < x) (hq : 0 < q) (hf : 0 ≤ f) :
    calcPnl ⟨side, some e, some x, some q, some (some f)⟩ =
      some ⟨e * q, x * q,
            if side = Side.long then (x - e) * q else (e - x) * q,
            f * (e * q + x * q),
            (if side = Side.long then (x - e) * q else (e - x) * q) - f * (e * q + x * q),
            ((if side = Side.long then (x - e) * q else (e - x) * q) -
              f * (e * q + x * q)) / (e * q)⟩ := by
  simp [calcPnl, assertPositive, assertNonNegative, if_pos he, if_pos hx, if_pos hq, if_pos hf]

/-- Witness for C1 at the spec's round-trip example: long, entry 100,
exit 110, qty 1, feeRate 0. -/
theorem calcPnl_formula_witness :
    calcPnl ⟨Side.long, some 100, some 110, some 1, some (some 0)⟩ =
      some ⟨100 * 1, 110 * 1,
            if Side.long = Side.long then ((110 : ℚ) - 100) * 1 else (100 - 110) * 1,
            0 * (100 * 1 + 110 * 1),
            (if Side.long = Side.long then ((110 : ℚ) - 100) * 1 else (100 - 110) * 1) -
              0 * (100 * 1 + 110 * 1),
            ((if Side.long = Side.long then ((110 : ℚ) - 100) * 1 else (100 - 110) * 1) -
              0 * (100 * 1 + 110 * 1)) / (100 * 1)⟩ :=
  calcPnl_formula Side.long 100 110 1 0 (by norm_num) (by norm_num) (by norm_num) (by norm_num)

/-- C7: calcPnl fails (no result) exactly when a required input is
non-finite or violates its positivity / non-negativity constraint; and a
non-finite value is treated by the positivity check identically to a
non-positive one. -/
theorem calcPnl_invalid_iff :
    (∀ input : PnlInput,
      (calcPnl input = none ↔
        (input.entryPrice = none ∨ ∃ e, input.entryPrice = some e ∧ e ≤ 0) ∨
        (input.exitPrice = none ∨ ∃ x, input.exitPrice = some x ∧ x ≤ 0) ∨
        (input.quantity = none ∨ ∃ q, input.quantity = some q ∧ q ≤ 0) ∨
        (input.feeRate.getD (some 0) = none ∨
          ∃ f, input.feeRate.getD (some 0) = some f ∧ f < 0))) ∧
    (∀ q : ℚ, q ≤ 0 → assertPositive none = assertPositive (some q)) := by
  constructor
  · intro input
    simp only [calcPnl_eq_none_iff, assertPositive_eq_none_iff, assertNonNegative_eq_none_iff]
  · intro q hq
    simp [assertPositive, not_lt.mp, hq.not_lt]

/-- Witness for C7: a NaN entry price yields no result, and the
positivity check sends NaN and −1 to the same outcome. -/
theorem calcPnl_invalid_iff_witness :
    calcPnl ⟨Side.long, none, some 110, some 1, none⟩ = none ∧
    assertPositive none = assertPositive (some (-1 : ℚ)) :=
  ⟨(calcPnl_invalid_iff.1 ⟨Side.long, none, some 110, some 1, none⟩).mpr (Or.inl (Or.inl rfl)),
    calcPnl_invalid_iff.2 (-1) (by norm_num)⟩

/-- C2: for strictly positive inputs, qtyForTargetAvg reports the invalid
outcome when newPrice equals targetAvg; otherwise, with
x = currentQty·(targetAvg − currentPrice)/(newPrice − targetAvg), it
reports the reverse outcome carrying |x| when x < 0 and the ok outcome
carrying x when x ≥ 0. -/
theorem qtyForTargetAvg_outcomes (cp cq ta np : ℚ)
    (hcp : 0 < cp) (hcq : 0 < cq) (hta : 0 < ta) (hnp : 0 < np) :
    (np = ta →
      qtyForTargetAvg ⟨some cp, some cq, some ta, some np⟩ = some TargetAvgOutcome.invalid) ∧
    (np ≠ ta →
      (cq * (ta - cp) / (np - ta) < 0 →
        qtyForTargetAvg ⟨some cp, some cq, some ta, some np⟩ =
          some (TargetAvgOutcome.reverse |cq * (ta - cp) / (np - ta)|)) ∧
      (0 ≤ cq * (ta - cp) / (np - ta) →
        qtyForTargetAvg ⟨some cp, some cq, some ta, some np⟩ =
          some (TargetAvgOutcome.ok (cq * (ta - cp) / (np - ta))))) := by
  refine ⟨fun heq => ?_, fun hne => ⟨fun hneg => ?_, fun hpos => ?_⟩⟩ <;>
    simp [qtyForTargetAvg, assertPositive, if_pos hcp, if_pos hcq, if_pos hta, if_pos hnp,
      *, not_lt.mpr]

/-- Witness for C2 at the spec's reverse example: currentPrice 100,
currentQty 10, targetAvg 105, newPrice 90, so x = −10/3. -/
theorem qtyForTargetAvg_outcomes_witness :
    ((90 : ℚ) = 105 →
      qtyForTargetAvg ⟨some 100, some 10, some 105, some 90⟩ = some TargetAvgOutcome.invalid) ∧
    ((90 : ℚ) ≠ 105 →
      ((10 : ℚ) * (105 - 100) / (90 - 105) < 0 →
        qtyForTargetAvg ⟨some 100, some 10, some 105, some 90⟩ =
          some (TargetAvgOutcome.reverse |(10 : ℚ) * (105 - 100) / (90 - 105)|)) ∧
      ((0 : ℚ) ≤ 10 * (105 - 100) / (90 - 105) →
        qtyForTargetAvg ⟨some 100, some 10, some 105, some 90⟩ =
          some (TargetAvgOutcome.ok (10 * (105 - 100) / (90 - 105))))) :=
  qtyForTargetAvg_outcomes 100 10 105 90 (by norm_num) (by norm_num) (by norm_num) (by norm_num)

/-- C3 counterexample: for a short with entryPrice 2^53 (one above
Number.MAX_SAFE_INTEGER), leverage 1 and mmr 0, calcLiquidationPrice
returns 9007199254740991, which is strictly below the entry price, so
the claimed formula (clamped only to a non-negative floor) and the
claimed short-side invariant both fail. -/
theorem calcLiquidationPrice_short_counterexample :
    calcLiquidationPrice ⟨Side.short, some 9007199254740992, some 1, some (some 0)⟩ =
      some ⟨9007199254740991, 0, true⟩ ∧
    (9007199254740991 : ℚ) < 9007199254740992 := by
  constructor
  · simp [calcLiquidationPrice, assertPositive, assertNonNegative, clamp, MAX_SAFE_INTEGER]
    norm_num
  · norm_num

/-- C3 amended: calcLiquidationPrice returns the directional min/max
formula clamped into [0, Number.MAX_SAFE_INTEGER]; the long liquidation
price never exceeds the entry price, and the short liquidation price
never falls below the entry price whenever the entry price does not
exceed Number.MAX_SAFE_INTEGER. -/
theorem calcLiquidationPrice_clamped (side : Side) (e lev m : ℚ)
    (he : 0 < e) (hlev : 0 < lev) (hm : 0 ≤ m) :
    ∃ r, calcLiquidationPrice ⟨side, some e, some lev, some (some m)⟩ = some r ∧
      r.liquidationPrice =
        clamp (if side = Side.long then min (e * (1 - 1 / lev + m)) e
               else max (e * (1 + 1 / lev - m)) e) 0 MAX_SAFE_INTEGER ∧
      (side = Side.long → r.liquidationPrice ≤ e) ∧
      (side = Side.short → e ≤ MAX_SAFE_INTEGER → e ≤ r.liquidationPrice) := by
  refine ⟨⟨clamp (if side = Side.long then min (e * (1 - 1 / lev + m)) e
    else max (e * (1 + 1 / lev - m)) e) 0 MAX_SAFE_INTEGER, m, true⟩, ?_, rfl, ?_, ?_⟩
  · simp [calcLiquidationPrice, assertPositive, assertNonNegative,
      if_pos he, if_pos hlev, if_pos hm]
  · intro hside
    simp only [hside, if_pos rfl, clamp]
    calc min MAX_SAFE_INTEGER (max 0 (min (e * (1 - 1 / lev + m)) e))
        ≤ max 0 (min (e * (1 - 1 / lev + m)) e) := min_le_right _ _
      _ ≤ max 0 e := max_le_max le_rfl (min_le_right _ _)
      _ = e := max_eq_right he.le
  · intro hside hcap
    have hne : side ≠ Side.long := by simp [hside]
    simp only [if_neg hne, clamp]
    refine le_min hcap ?_
    exact le_trans (le_max_right _ _) (le_max_right _ _)

/-- Witness for C3 amended at the spec's example: long, entry 100,
leverage 10, mmr 0.005. -/
theorem calcLiquidationPrice_clamped_witness :
    ∃ r, calcLiquidationPrice ⟨Side.long, some 100, some 10, some (some (1 / 200))⟩ = some r ∧
      r.liquidationPrice =
        clamp (if Side.long = Side.long then min ((100 : ℚ) * (1 - 1 / 10 + 1 / 200)) 100
               else max ((100 : ℚ) * (1 + 1 / 10 - 1 / 200)) 100) 0 MAX_SAFE_INTEGER ∧
      (Side.long = Side.long → r.liquidationPrice ≤ 100) ∧
      (Side.long = Side.short → (100 : ℚ) ≤ MAX_SAFE_INTEGER → (100 : ℚ) ≤ r.liquidationPrice) :=
  calcLiquidationPrice_clamped Side.long 100 10 (1 / 200) (by norm_num) (by norm_num) (by norm_num)

/-- C5: the effective remaining allowance is the minimum of the two
ceilings when both are finite and positive, the single finite positive
one when exactly one is, and when neither is, no allowance is produced
and the breach memo yields no result. -/
theorem effectiveRemaining_selection :
    (∀ a b : ℚ, 0 < a → 0 < b → effectiveRemaining (some a) (some b) = some (min a b)) ∧
    (∀ (a : ℚ) (b : JSNum), 0 < a → jsGt0 b = false → effectiveRemaining (some a) b = some a) ∧
    (∀ (a : JSNum) (b : ℚ), jsGt0 a = false → 0 < b → effectiveRemaining a (some b) = some b) ∧
    (∀ a b : JSNum, jsGt0 a = false → jsGt0 b = false →
      effectiveRemaining a b = none ∧
      ∀ avg mode side pv ps pvl, breachMemo avg mode side a b pv ps pvl = none) := by
  refine ⟨fun a b ha hb => ?_, fun a b ha hb => ?_, fun a b ha hb => ?_, fun a b ha hb => ?_⟩
  · simp [effectiveRemaining, isFiniteNumber, jsGt0, ha, hb]
  · have ha' : jsGt0 (some a) = true := by simp [jsGt0, ha]
    simp [effectiveRemaining, isFiniteNumber, ha', hb]
  · have hb' : jsGt0 (some b) = true := by simp [jsGt0, hb]
    simp [effectiveRemaining, isFiniteNumber, ha, hb']
  · have heff : effectiveRemaining a b = none := by
      simp [effectiveRemaining, ha, hb]
    refine ⟨heff, fun avg mode side pv ps pvl => ?_⟩
    cases avg with
    | none => rfl
    | some r => simp [breachMemo, heff, jsGt0]

/-- Witness for C5 at the spec's example: remainingDrawdown 500 and
dailyLossRemaining 300 give effective 300; a single positive ceiling is
used as is; with neither positive there is no allowance and no breach
result. -/
theorem effectiveRemaining_selection_witness :
    effectiveRemaining (some 500) (some 300) = some (min 500 300) ∧
    effectiveRemaining (some 500) none = some 500 ∧
    effectiveRemaining none (some 300) = some 300 ∧
    effectiveRemaining none none = none ∧
    breachMemo (some ⟨2, 10050, 5025⟩) Mode.futures Side.long none none
      (some 50) (some (1 / 4)) (some 10) = none :=
  ⟨effectiveRemaining_selection.1 500 300 (by norm_num) (by norm_num),
    effectiveRemaining_selection.2.1 500 none (by norm_num) rfl,
    effectiveRemaining_selection.2.2.1 none 300 rfl (by norm_num),
    (effectiveRemaining_selection.2.2.2 none none rfl rfl).1,
    (effectiveRemaining_selection.2.2.2 none none rfl rfl).2
      (some ⟨2, 10050, 5025⟩) Mode.futures Side.long (some 50) (some (1 / 4)) (some 10)⟩

/-- C6 counterexample: prop.ts futuresBreachPrice with a non-positive
quantity (0 contracts) does not fail; it returns the default result with
maxAdversePoints 0 and breachPrice equal to the average entry. -/
theorem futuresBreachPrice_default_counterexample :
    futuresBreachPrice Side.long (some 100) (some 0) (some 500)
      ⟨some (1 / 4), some (25 / 2), none⟩ = ⟨0, 0, some 100⟩ := by
  simp [futuresBreachPrice, derivePointValueUsd, safeDiv, clampNonNegative, pointsToTicks,
    jsub]

/-- Helper: converting a zero point distance gives zero ticks for any
tick size. -/
theorem pointsToTicks_zero (ts : JSNum) : pointsToTicks 0 ts = 0 := by
  cases ts with
  | none => rfl
  | some b =>
    simp only [pointsToTicks, safeDiv, abs_zero]
    split_ifs with h
    · rfl
    · exact zero_div b

/-- C6 amended: the prop-firm page breachPrice helper signals an
input-validation failure (no result, never a zero or default value)
whenever averageEntry, quantity, or the remaining drawdown is
non-positive or non-finite; the prop.ts futuresBreachPrice and
forexBreachPrice variants perform no such validation and always return
a result: with a non-positive or non-finite quantity (the average entry
being finite, and the pip size finite for forex) they return
maxAdverseMove = 0 and breachPrice equal to the average entry. -/
theorem breachPrice_invalid_vs_default :
    (∀ args : BreachArgs,
      jsGt0 args.avgEntry = false ∨ jsGt0 args.qty = false ∨
        jsGt0 args.remainingDrawdownUsd = false →
      breachPrice args = none) ∧
    (∀ (side : Side) (a : ℚ) (contracts rem : JSNum) (spec : FuturesSpec),
      contracts = none ∨ (∃ q, contracts = some q ∧ q ≤ 0) →
      futuresBreachPrice side (some a) contracts rem spec = ⟨0, 0, some a⟩) ∧
    (∀ (side : Side) (a : ℚ) (lots rem : JSNum) (ps : ℚ) (pvl : JSNum),
      lots = none ∨ (∃ q, lots = some q ∧ q ≤ 0) →
      forexBreachPrice side (some a) lots rem ⟨some ps, pvl⟩ = ⟨0, some a⟩) := by
  refine ⟨fun args h => ?_, fun side a contracts rem spec h => ?_,
    fun side a lots rem ps pvl h => ?_⟩
  · unfold breachPrice
    rcases h with h | h | h <;> simp [h]
  · have hc : clampNonNegative contracts = 0 := by
      rcases h with rfl | ⟨q, rfl, hq⟩
      · rfl
      · simp [clampNonNegative, max_eq_left hq]
    cases side <;>
      simp [futuresBreachPrice, hc, mul_zero, pointsToTicks_zero, jsub, jadd,
        sub_zero, add_zero]
  · have hc : clampNonNegative lots = 0 := by
      rcases h with rfl | ⟨q, rfl, hq⟩
      · rfl
      · simp [clampNonNegative, max_eq_left hq]
    cases pvl <;> cases side <;>
      simp [forexBreachPrice, hc, jmul, jsGt0, jsub, jadd, zero_mul, mul_zero,
        sub_zero, add_zero]

/-- Witness for C6 amended: zero quantity yields no result from the page
helper, and the zero default from both prop.ts variants. -/
theorem breachPrice_invalid_vs_default_witness :
    breachPrice ⟨Mode.futures, Side.long, some 100, some 0, some 500,
      some (some 50), none, none⟩ = none ∧
    futuresBreachPrice Side.long (some 100) (some 0) (some 500)
      ⟨some 1, some 50, none⟩ = ⟨0, 0, some 100⟩ ∧
    forexBreachPrice Side.long (some 100) (some 0) (some 500)
      ⟨some (1 / 10000), some 10⟩ = ⟨0, some 100⟩ :=
  ⟨breachPrice_invalid_vs_default.1 ⟨Mode.futures, Side.long, some 100, some 0, some 500,
      some (some 50), none, none⟩ (Or.inr (Or.inl (by norm_num [jsGt0]))),
    breachPrice_invalid_vs_default.2.1 Side.long 100 (some 0) (some 500)
      ⟨some 1, some 50, none⟩ (Or.inr ⟨0, rfl, le_rfl⟩),
    breachPrice_invalid_vs_default.2.2 Side.long 100 (some 0) (some 500) (1 / 10000)
      (some 10) (Or.inr ⟨0, rfl, le_rfl⟩)⟩

/-- C4: with all inputs strictly positive, the page breachPrice helper
returns maxAdverse = remainingDrawdown / (pointValue·qty) points for
futures and remainingDrawdown / (pipValue·qty) pips for forex, and the
breach price is the average entry minus the adverse price distance for a
long and plus it for a short (the forex price distance being pips times
pip size); the prop.ts futures and forex variants agree. -/
theorem breachPrice_formula (side : Side) (avgEntry qty rem pv ps pvl : ℚ)
    (h1 : 0 < avgEntry) (h2 : 0 < qty) (h3 : 0 < rem) (h4 : 0 < pv)
    (h5 : 0 < ps) (h6 : 0 < pvl) :
    breachPrice ⟨Mode.futures, side, some avgEntry, some qty, some rem,
        some (some pv), none, none⟩ =
      some ⟨rem / (pv * qty),
            if side = Side.long then avgEntry - rem / (pv * qty)
            else avgEntry + rem / (pv * qty),
            BreachUnit.points⟩ ∧
    breachPrice ⟨Mode.forex, side, some avgEntry, some qty, some rem,
        none, some (some ps), some (some pvl)⟩ =
      some ⟨rem / (pvl * qty),
            if side = Side.long then avgEntry - rem / (pvl * qty) * ps
            else avgEntry + rem / (pvl * qty) * ps,
            BreachUnit.pips⟩ ∧
    (futuresBreachPrice side (some avgEntry) (some qty) (some rem)
        ⟨some 1, some pv, none⟩).maxAdversePoints = rem / (pv * qty) ∧
    (futuresBreachPrice side (some avgEntry) (some qty) (some rem)
        ⟨some 1, some pv, none⟩).breachPrice =
      some (if side = Side.long then avgEntry - rem / (pv * qty)
            else avgEntry + rem / (pv * qty)) ∧
    (forexBreachPrice side (some avgEntry) (some qty) (some rem)
        ⟨some ps, some pvl⟩).maxAdversePips = rem / (pvl * qty) ∧
    (forexBreachPrice side (some avgEntry) (some qty) (some rem)
        ⟨some ps, some pvl⟩).breachPrice =
      some (if side = Side.long then avgEntry - rem / (pvl * qty) * ps
            else avgEntry + rem / (pvl * qty) * ps) := by
  have hq : max 0 qty = qty := max_eq_right h2.le
  have hr : max 0 rem = rem := max_eq_right h3.le
  have hdf : 0 < pv * qty := mul_pos h4 h2
  have hdx : 0 < pvl * qty := mul_pos h6 h2
  refine ⟨?_, ?_, ?_, ?_, ?_, ?_⟩
  · cases side <;>
      · simp [breachPrice, jsGt0, h1, h2, h3, h4]
        try ring
  · cases side <;>
      · simp [breachPrice, jsGt0, h1, h2, h3, h5, h6]
        try ring
  · simp [futuresBreachPrice, derivePointValueUsd, safeDiv, clampNonNegative, hq, hr,
      if_pos hdf]
  · cases side <;>
      simp [futuresBreachPrice, derivePointValueUsd, safeDiv, clampNonNegative, hq, hr,
        if_pos hdf, jsub, jadd]
  · simp [forexBreachPrice, jmul, jsGt0, clampNonNegative, hq, hr, hdx]
  · cases side <;>
      simp [forexBreachPrice, jmul, jsGt0, clampNonNegative, hq, hr, hdx, jsub, jadd]

/-- Witness for C4: long futures position, average entry 5025, 2
contracts, 500 remaining drawdown, point value 50; and the matching
forex query with pip size 1/10000 and pip value 10. -/
theorem breachPrice_formula_witness :
    breachPrice ⟨Mode.futures, Side.long, some 5025, some 2, some 500,
        some (some 50), none, none⟩ =
      some ⟨(500 : ℚ) / (50 * 2),
            if Side.long = Side.long then (5025 : ℚ) - 500 / (50 * 2)
            else (5025 : ℚ) + 500 / (50 * 2),
            BreachUnit.points⟩ ∧
    breachPrice ⟨Mode.forex, Side.long, some 5025, some 2, some 500,
        none, some (some (1 / 10000)), some (some 10)⟩ =
      some ⟨(500 : ℚ) / (10 * 2),
            if Side.long = Side.long then (5025 : ℚ) - 500 / (10 * 2) * (1 / 10000)
            else (5025 : ℚ) + 500 / (10 * 2) * (1 / 10000),
            BreachUnit.pips⟩ ∧
    (futuresBreachPrice Side.long (some 5025) (some 2) (some 500)
        ⟨some 1, some 50, none⟩).maxAdversePoints = (500 : ℚ) / (50 * 2) ∧
    (futuresBreachPrice Side.long (some 5025) (some 2) (some 500)
        ⟨some 1, some 50, none⟩).breachPrice =
      some (if Side.long = Side.long then (5025 : ℚ) - 500 / (50 * 2)
            else (5025 : ℚ) + 500 / (50 * 2)) ∧
    (forexBreachPrice Side.long (some 5025) (some 2) (some 500)
        ⟨some (1 / 10000), some 10⟩).maxAdversePips = (500 : ℚ) / (10 * 2) ∧
    (forexBreachPrice Side.long (some 5025) (some 2) (some 500)
        ⟨some (1 / 10000), some 10⟩).breachPrice =
      some (if Side.long = Side.long then (5025 : ℚ) - 500 / (10 * 2) * (1 / 10000)
            else (5025 : ℚ) + 500 / (10 * 2) * (1 / 10000)) :=
  breachPrice_formula Side.long 5025 2 500 50 (1 / 10000) 10 (by norm_num) (by norm_num)
    (by norm_num) (by norm_num) (by norm_num) (by norm_num)

/-- C9 counterexample: a second leg with price 0 (finite, non-positive)
and quantity 1 is NOT treated as absent by calcTwoLegAverage: the result
has hasSecondLeg true, totalQty 2 and avgEntry 50 instead of the first
leg's price 100. -/
theorem calcTwoLegAverage_price_counterexample :
    calcTwoLegAverage ⟨some 100, some 1, some (some 0), some (some 1)⟩ =
      ⟨2, some 50, some (-50), true⟩ := by
  simp [calcTwoLegAverage, hasSecondLegOf, isFiniteNumber, jsGt0, clampNonNegative,
    jdiv, jadd, jmul, jsub]
  norm_num

/-- C9 amended: a second leg that fails the code's presence test — a
non-finite price, or a non-finite or non-positive quantity — is treated
as absent: hasSecondLeg is false, totalQty is the first leg's quantity,
avgEntry is the first leg's price and avgShift is zero. A finite
non-positive price with a positive quantity does not fail the test. -/
theorem calcTwoLegAverage_absent (p1 q1 : ℚ) (p2 q2 : Option JSNum)
    (hp1 : 0 < p1) (hq1 : 0 < q1)
    (habs : hasSecondLegOf (p2.getD (some 0)) (q2.getD (some 0)) = false) :
    calcTwoLegAverage ⟨some p1, some q1, p2, q2⟩ = ⟨q1, some p1, some 0, false⟩ := by
  have hq1' : max 0 q1 = q1 := max_eq_right hq1.le
  simp only [calcTwoLegAverage, habs, if_false, clampNonNegative, hq1', add_zero,
    Bool.false_eq_true]
  rw [if_pos hq1]
  simp only [jmul, jadd, add_zero, jdiv, if_neg hq1.ne', jsub]
  rw [mul_div_assoc, div_self hq1.ne', mul_one, sub_self]

/-- Witness for C9 amended: first leg (100, 1), second leg with price
105 but NaN quantity, treated as absent. -/
theorem calcTwoLegAverage_absent_witness :
    calcTwoLegAverage ⟨some 100, some 1, some (some 105), some none⟩ =
      ⟨1, some 100, some 0, false⟩ :=
  calcTwoLegAverage_absent 100 1 (some (some 105)) (some none)
    (by norm_num) (by norm_num) rfl

/-- Helper: the verdict selection of compareAvgPnl as three iffs over the
raw delta. -/
theorem compareVerdict_iff (d : ℚ) :
    ((if |d| < 1 / 100000000 then Verdict.same
      else if 0 < d then Verdict.better else Verdict.worse) = Verdict.same ↔
        |d| < 1 / 100000000) ∧
    ((if |d| < 1 / 100000000 then Verdict.same
      else if 0 < d then Verdict.better else Verdict.worse) = Verdict.better ↔
        1 / 100000000 ≤ |d| ∧ 0 < d) ∧
    ((if |d| < 1 / 100000000 then Verdict.same
      else if 0 < d then Verdict.better else Verdict.worse) = Verdict.worse ↔
        1 / 100000000 ≤ |d| ∧ d < 0) := by
  split_ifs with hs hp
  · exact ⟨iff_of_true rfl hs,
      iff_of_false (by decide) (fun hc => (not_lt.mpr hc.1) hs),
      iff_of_false (by decide) (fun hc => (not_lt.mpr hc.1) hs)⟩
  · exact ⟨iff_of_false (by decide) hs,
      iff_of_true rfl ⟨not_lt.mp hs, hp⟩,
      iff_of_false (by decide) (fun hc => lt_asymm hc.2 hp)⟩
  · have hd0 : d ≠ 0 := by
      intro h
      rw [h] at hs
      exact hs (by norm_num)
    have hneg : d < 0 := lt_of_le_of_ne (not_lt.mp hp) hd0
    exact ⟨iff_of_false (by decide) hs,
      iff_of_false (by decide) (fun hc => hp hc.2),
      iff_of_true rfl ⟨not_lt.mp hs, hneg⟩⟩

/-- C10: with all five numeric arguments strictly positive, compareAvgPnl
returns a delta equal to the standalone directional PnL of the added leg
at the market price; the verdict is better exactly when that PnL is
positive (and at least the 1e-8 tolerance), worse exactly when it is
negative (and at least the tolerance in magnitude), and same exactly
when its magnitude is below the tolerance. -/
theorem compareAvgPnl_delta_verdict (side : Side) (p1 q1 p2 q2 m : ℚ)
    (h1 : 0 < p1) (h2 : 0 < q1) (h3 : 0 < p2) (h4 : 0 < q2) (h5 : 0 < m) :
    ∃ r, compareAvgPnl ⟨side, some p1, some q1, some p2, some q2, some m⟩ = some r ∧
      r.delta = (if side = Side.long then (m - p2) * q2 else (p2 - m) * q2) ∧
      (r.verdict = Verdict.same ↔ |r.delta| < 1 / 100000000) ∧
      (r.verdict = Verdict.better ↔ 1 / 100000000 ≤ |r.delta| ∧ 0 < r.delta) ∧
      (r.verdict = Verdict.worse ↔ 1 / 100000000 ≤ |r.delta| ∧ r.delta < 0) := by
  have htot : q1 + q2 ≠ 0 := by positivity
  cases side with
  | long =>
    have hd : (m - (p1 * q1 + p2 * q2) / (q1 + q2)) * (q1 + q2) - (m - p1) * q1 =
        (m - p2) * q2 := by
      field_simp
      ring
    refine ⟨⟨(p1 * q1 + p2 * q2) / (q1 + q2), q1 + q2, (m - p1) * q1,
      (m - (p1 * q1 + p2 * q2) / (q1 + q2)) * (q1 + q2),
      (m - (p1 * q1 + p2 * q2) / (q1 + q2)) * (q1 + q2) - (m - p1) * q1,
      if |(m - (p1 * q1 + p2 * q2) / (q1 + q2)) * (q1 + q2) - (m - p1) * q1| < 1 / 100000000
        then Verdict.same
        else if 0 < (m - (p1 * q1 + p2 * q2) / (q1 + q2)) * (q1 + q2) - (m - p1) * q1
        then Verdict.better else Verdict.worse⟩, ?_, ?_, ?_, ?_, ?_⟩
    · simp [compareAvgPnl, assertPositive, if_pos h1, if_pos h2, if_pos h3, if_pos h4,
        if_pos h5]
    · simpa using hd
    · exact (compareVerdict_iff _).1
    · exact (compareVerdict_iff _).2.1
    · exact (compareVerdict_iff _).2.2
  | short =>
    have hd : ((p1 * q1 + p2 * q2) / (q1 + q2) - m) * (q1 + q2) - (p1 - m) * q1 =
        (p2 - m) * q2 := by
      field_simp
      ring
    refine ⟨⟨(p1 * q1 + p2 * q2) / (q1 + q2), q1 + q2, (p1 - m) * q1,
      ((p1 * q1 + p2 * q2) / (q1 + q2) - m) * (q1 + q2),
      ((p1 * q1 + p2 * q2) / (q1 + q2) - m) * (q1 + q2) - (p1 - m) * q1,
      if |((p1 * q1 + p2 * q2) / (q1 + q2) - m) * (q1 + q2) - (p1 - m) * q1| < 1 / 100000000
        then Verdict.same
        else if 0 < ((p1 * q1 + p2 * q2) / (q1 + q2) - m) * (q1 + q2) - (p1 - m) * q1
        then Verdict.better else Verdict.worse⟩, ?_, ?_, ?_, ?_, ?_⟩
    · simp [compareAvgPnl, assertPositive, if_pos h1, if_pos h2, if_pos h3, if_pos h4,
        if_pos h5]
    · simpa using hd
    · exact (compareVerdict_iff _).1
    · exact (compareVerdict_iff _).2.1
    · exact (compareVerdict_iff _).2.2

/-- Witness for C10: long, initial leg (100, 1), added leg (105, 1),
market price 110; the added leg's own PnL is 5, so the verdict is
better. -/
theorem compareAvgPnl_delta_verdict_witness :
    ∃ r, compareAvgPnl ⟨Side.long, some 100, some 1, some 105, some 1, some 110⟩ = some r ∧
      r.delta = (if Side.long = Side.long then ((110 : ℚ) - 105) * 1 else (105 - 110) * 1) ∧
      (r.verdict = Verdict.same ↔ |r.delta| < 1 / 100000000) ∧
      (r.verdict = Verdict.better ↔ 1 / 100000000 ≤ |r.delta| ∧ 0 < r.delta) ∧
      (r.verdict = Verdict.worse ↔ 1 / 100000000 ≤ |r.delta| ∧ r.delta < 0) :=
  compareAvgPnl_delta_verdict Side.long 100 1 105 1 110 (by norm_num) (by norm_num)
    (by norm_num) (by norm_num) (by norm_num)

/-- Helper: quantities positive gives a non-negative quantity sum. -/
theorem sumQty_nonneg : ∀ entries : List (ℚ × ℚ),
    (∀ e ∈ entries, 0 < e.2) → 0 ≤ sumQty entries := by
  intro entries
  induction entries with
  | nil => intro _; simp [sumQty]
  | cons e rest ih =>
    intro h
    have he := h e (List.mem_cons_self e rest)
    have hr := ih (fun x hx => h x (List.mem_cons_of_mem e hx))
    simp only [sumQty, List.map_cons, List.sum_cons]
    exact add_nonneg he.le hr

/-- Helper: the validating loop of calcAvgEntry sums quantity and cost
over valid legs. -/
theorem avgEntryLoop_eq : ∀ entries : List (ℚ × ℚ),
    (∀ e ∈ entries, 0 < e.1 ∧ 0 < e.2) →
    ∀ a b : ℚ,
      avgEntryLoop (legsOf entries) a b = some (a + sumQty entries, b + sumCost entries) := by
  intro entries
  induction entries with
  | nil => intro _ a b; simp [legsOf, avgEntryLoop, sumQty, sumCost]
  | cons e rest ih =>
    intro h a b
    obtain ⟨hp, hq⟩ := h e (List.mem_cons_self e rest)
    have ihh := ih (fun x hx => h x (List.mem_cons_of_mem e hx))
    simp only [legsOf] at ihh ⊢
    simp only [List.map_cons, avgEntryLoop, assertPositive, if_pos hp, if_pos hq,
      Option.bind_eq_bind, Option.some_bind]
    rw [ihh (a + e.2) (b + e.1 * e.2)]
    simp only [sumQty, sumCost, List.map_cons, List.sum_cons, Option.some.injEq,
      Prod.mk.injEq]
    constructor <;> ring

/-- Helper: a lower bound on all prices bounds the cost sum from below. -/
theorem sumCost_lower : ∀ (entries : List (ℚ × ℚ)) (m : ℚ),
    (∀ e ∈ entries, 0 < e.2) → (∀ e ∈ entries, m ≤ e.1) →
    m * sumQty entries ≤ sumCost entries := by
  intro entries m
  induction entries with
  | nil => intro _ _; simp [sumQty, sumCost]
  | cons e rest ih =>
    intro hq hm
    have h1 : m * e.2 ≤ e.1 * e.2 :=
      mul_le_mul_of_nonneg_right (hm e (List.mem_cons_self e rest))
        (hq e (List.mem_cons_self e rest)).le
    have h2 := ih (fun x hx => hq x (List.mem_cons_of_mem e hx))
      (fun x hx => hm x (List.mem_cons_of_mem e hx))
    simp only [sumQty, sumCost] at h2
    simp only [sumQty, sumCost, List.map_cons, List.sum_cons]
    calc m * (e.2 + (rest.map (fun x => x.2)).sum)
        = m * e.2 + m * (rest.map (fun x => x.2)).sum := by ring
      _ ≤ e.1 * e.2 + (rest.map (fun x => x.1 * x.2)).sum := add_le_add h1 h2

/-- Helper: an upper bound on all prices bounds the cost sum from above. -/
theorem sumCost_upper : ∀ (entries : List (ℚ × ℚ)) (M : ℚ),
    (∀ e ∈ entries, 0 < e.2) → (∀ e ∈ entries, e.1 ≤ M) →
    sumCost entries ≤ M * sumQty entries := by
  intro entries M
  induction entries with
  | nil => intro _ _; simp [sumQty, sumCost]
  | cons e rest ih =>
    intro hq hm
    have h1 : e.1 * e.2 ≤ M * e.2 :=
      mul_le_mul_of_nonneg_right (hm e (List.mem_cons_self e rest))
        (hq e (List.mem_cons_self e rest)).le
    have h2 := ih (fun x hx => hq x (List.mem_cons_of_mem e hx))
      (fun x hx => hm x (List.mem_cons_of_mem e hx))
    simp only [sumQty, sumCost] at h2
    simp only [sumQty, sumCost, List.map_cons, List.sum_cons]
    calc e.1 * e.2 + (rest.map (fun x => x.1 * x.2)).sum
        ≤ M * e.2 + M * (rest.map (fun x => x.2)).sum := add_le_add h1 h2
      _ = M * (e.2 + (rest.map (fun x => x.2)).sum) := by ring

/-- Helper: if some price strictly exceeds the lower bound, the cost sum
strictly exceeds the bound. -/
theorem sumCost_lower_strict : ∀ (entries : List (ℚ × ℚ)) (m : ℚ),
    (∀ e ∈ entries, 0 < e.2) → (∀ e ∈ entries, m ≤ e.1) →
    (∃ e ∈ entries, m < e.1) → m * sumQty entries < sumCost entries := by
  intro entries m
  induction entries with
  | nil =>
    rintro _ _ ⟨e, he, _⟩
    exact absurd he (List.not_mem_nil e)
  | cons e rest ih =>
    rintro hq hm ⟨w, hw, hwlt⟩
    have hqe := hq e (List.mem_cons_self e rest)
    have hqrest : ∀ x ∈ rest, 0 < x.2 := fun x hx => hq x (List.mem_cons_of_mem e hx)
    have hmrest : ∀ x ∈ rest, m ≤ x.1 := fun x hx => hm x (List.mem_cons_of_mem e hx)
    simp only [sumQty, sumCost, List.map_cons, List.sum_cons]
    rcases List.mem_cons.mp hw with rfl | hwrest
    · have h1 : m * w.2 < w.1 * w.2 := mul_lt_mul_of_pos_right hwlt hqe
      have h2 := sumCost_lower rest m hqrest hmrest
      simp only [sumQty, sumCost] at h2
      calc m * (w.2 + (rest.map (fun x => x.2)).sum)
          = m * w.2 + m * (rest.map (fun x => x.2)).sum := by ring
        _ < w.1 * w.2 + (rest.map (fun x => x.1 * x.2)).sum := add_lt_add_of_lt_of_le h1 h2
    · have h1 : m * e.2 ≤ e.1 * e.2 :=
        mul_le_mul_of_nonneg_right (hm e (List.mem_cons_self e rest)) hqe.le
      have h2 := ih hqrest hmrest ⟨w, hwrest, hwlt⟩
      simp only [sumQty, sumCost] at h2
      calc m * (e.2 + (rest.map (fun x => x.2)).sum)
          = m * e.2 + m * (rest.map (fun x => x.2)).sum := by ring
        _ < e.1 * e.2 + (rest.map (fun x => x.1 * x.2)).sum := add_lt_add_of_le_of_lt h1 h2

/-- Helper: if some price is strictly below the upper bound, the cost
sum is strictly below the bound. -/
theorem sumCost_upper_strict : ∀ (entries : List (ℚ × ℚ)) (M : ℚ),
    (∀ e ∈ entries, 0 < e.2) → (∀ e ∈ entries, e.1 ≤ M) →
    (∃ e ∈ entries, e.1 < M) → sumCost entries < M * sumQty entries := by
  intro entries M
  induction entries with
  | nil =>
    rintro _ _ ⟨e, he, _⟩
    exact absurd he (List.not_mem_nil e)
  | cons e rest ih =>
    rintro hq hm ⟨w, hw, hwlt⟩
    have hqe := hq e (List.mem_cons_self e rest)
    have hqrest : ∀ x ∈ rest, 0 < x.2 := fun x hx => hq x (List.mem_cons_of_mem e hx)
    have hmrest : ∀ x ∈ rest, x.1 ≤ M := fun x hx => hm x (List.mem_cons_of_mem e hx)
    simp only [sumQty, sumCost, List.map_cons, List.sum_cons]
    rcases List.mem_cons.mp hw with rfl | hwrest
    · have h1 : w.1 * w.2 < M * w.2 := mul_lt_mul_of_pos_right hwlt hqe
      have h2 := sumCost_upper rest M hqrest hmrest
      simp only [sumQty, sumCost] at h2
      calc w.1 * w.2 + (rest.map (fun x => x.1 * x.2)).sum
          < M * w.2 + M * (rest.map (fun x => x.2)).sum := add_lt_add_of_lt_of_le h1 h2
        _ = M * (w.2 + (rest.map (fun x => x.2)).sum) := by ring
    · have h1 : e.1 * e.2 ≤ M * e.2 :=
        mul_le_mul_of_nonneg_right (hm e (List.mem_cons_self e rest)) hqe.le
      have h2 := ih hqrest hmrest ⟨w, hwrest, hwlt⟩
      simp only [sumQty, sumCost] at h2
      calc e.1 * e.2 + (rest.map (fun x => x.1 * x.2)).sum
          < M * e.2 + M * (rest.map (fun x => x.2)).sum := add_lt_add_of_le_of_lt h1 h2
        _ = M * (e.2 + (rest.map (fun x => x.2)).sum) := by ring

/-- C8: for every non-empty list of legs with strictly positive prices
and quantities, calcAvgEntry returns totalCost = Σ price·qty, totalQty =
Σ qty, and avgPrice = totalCost / totalQty, which lies between every
lower and upper bound on the leg prices and coincides with such a bound
only when all leg prices equal it; for a single leg the average is that
leg's price and totalQty its quantity. -/
theorem calcAvgEntry_spec (entries : List (ℚ × ℚ)) (hne : entries ≠ [])
    (hpos : ∀ e ∈ entries, 0 < e.1 ∧ 0 < e.2) :
    ∃ r, calcAvgEntry (legsOf entries) = some r ∧
      r.totalQty = sumQty entries ∧
      r.totalCost = sumCost entries ∧
      r.avgPrice = sumCost entries / sumQty entries ∧
      (∀ m, (∀ e ∈ entries, m ≤ e.1) →
        m ≤ r.avgPrice ∧ (r.avgPrice = m → ∀ e ∈ entries, e.1 = m)) ∧
      (∀ M, (∀ e ∈ entries, e.1 ≤ M) →
        r.avgPrice ≤ M ∧ (r.avgPrice = M → ∀ e ∈ entries, e.1 = M)) ∧
      (∀ p q : ℚ, entries = [(p, q)] → r.avgPrice = p ∧ r.totalQty = q) := by
  have hq2 : ∀ e ∈ entries, 0 < e.2 := fun e he => (hpos e he).2
  have hq0 : 0 < sumQty entries := by
    obtain ⟨e, rest, rfl⟩ := List.exists_cons_of_ne_nil hne
    have he := hq2 e (List.mem_cons_self e rest)
    have hr := sumQty_nonneg rest (fun x hx => hq2 x (List.mem_cons_of_mem e hx))
    simp only [sumQty, List.map_cons, List.sum_cons]
    simp only [sumQty] at hr
    exact add_pos_of_pos_of_nonneg he hr
  have hloop := avgEntryLoop_eq entries hpos 0 0
  have hmain : calcAvgEntry (legsOf entries) =
      some ⟨sumQty entries, sumCost entries, sumCost entries / sumQty entries⟩ := by
    have hne' : (legsOf entries).isEmpty = false := by
      cases entries with
      | nil => exact absurd rfl hne
      | cons e rest => rfl
    simp [calcAvgEntry, hne', hloop]
  refine ⟨_, hmain, rfl, rfl, rfl, ?_, ?_, ?_⟩
  · intro m hm
    refine ⟨(le_div_iff₀ hq0).mpr (sumCost_lower entries m hq2 hm), fun havg e he => ?_⟩
    by_contra hne2
    have hlt : m < e.1 := lt_of_le_of_ne (hm e he) (Ne.symm hne2)
    have hstrict := sumCost_lower_strict entries m hq2 hm ⟨e, he, hlt⟩
    have hstep : m < sumCost entries / sumQty entries := (lt_div_iff₀ hq0).mpr hstrict
    have havg' : sumCost entries / sumQty entries = m := havg
    rw [havg'] at hstep
    exact lt_irrefl m hstep
  · intro M hM
    refine ⟨(div_le_iff₀ hq0).mpr (sumCost_upper entries M hq2 hM), fun havg e he => ?_⟩
    by_contra hne2
    have hlt : e.1 < M := lt_of_le_of_ne (hM e he) hne2
    have hstrict := sumCost_upper_strict entries M hq2 hM ⟨e, he, hlt⟩
    have hstep : sumCost entries / sumQty entries < M := (div_lt_iff₀ hq0).mpr hstrict
    have havg' : sumCost entries / sumQty entries = M := havg
    rw [havg'] at hstep
    exact lt_irrefl M hstep
  · intro p q hE
    subst hE
    have hq : 0 < q := (hpos (p, q) (List.mem_cons_self (p, q) [])).2
    constructor
    · simp only [sumCost, sumQty, List.map_cons, List.map_nil, List.sum_cons, List.sum_nil,
        add_zero]
      exact mul_div_cancel_right₀ p hq.ne'
    · simp [sumQty]

/-- Witness for C8 at the spec's two-leg example: legs (100, 1) and
(110, 1). -/
theorem calcAvgEntry_spec_witness :
    ∃ r, calcAvgEntry (legsOf [((100 : ℚ), (1 : ℚ)), ((110 : ℚ), (1 : ℚ))]) = some r ∧
      r.totalQty = sumQty [((100 : ℚ), (1 : ℚ)), ((110 : ℚ), (1 : ℚ))] ∧
      r.totalCost = sumCost [((100 : ℚ), (1 : ℚ)), ((110 : ℚ), (1 : ℚ))] ∧
      r.avgPrice = sumCost [((100 : ℚ), (1 : ℚ)), ((110 : ℚ), (1 : ℚ))] / sumQty [((100 : ℚ), (1 : ℚ)), ((110 : ℚ), (1 : ℚ))] ∧
      (∀ m, (∀ e ∈ [((100 : ℚ), (1 : ℚ)), ((110 : ℚ), (1 : ℚ))], m ≤ e.1) →
        m ≤ r.avgPrice ∧ (r.avgPrice = m → ∀ e ∈ [((100 : ℚ), (1 : ℚ)), ((110 : ℚ), (1 : ℚ))], e.1 = m)) ∧
      (∀ M, (∀ e ∈ [((100 : ℚ), (1 : ℚ)), ((110 : ℚ), (1 : ℚ))], e.1 ≤ M) →
        r.avgPrice ≤ M ∧ (r.avgPrice = M → ∀ e ∈ [((100 : ℚ), (1 : ℚ)), ((110 : ℚ), (1 : ℚ))], e.1 = M)) ∧
      (∀ p q : ℚ, [((100 : ℚ), (1 : ℚ)), ((110 : ℚ), (1 : ℚ))] = [(p, q)] →
        r.avgPrice = p ∧ r.totalQty = q) :=
  calcAvgEntry_spec [((100 : ℚ), (1 : ℚ)), ((110 : ℚ), (1 : ℚ))] (by simp)
    (by
      intro e he
      rcases List.mem_cons.mp he with rfl | he2
      · exact ⟨by norm_num, by norm_num⟩
      rcases List.mem_cons.mp he2 with rfl | he3
      · exact ⟨by norm_num, by norm_num⟩
      · exact absurd he3 (List.not_mem_nil e))
